import Mathlib

/-!
Verification of the anonymization engine of `anonymize.py`
(business-data anonymizer: value classifier, pseudonym generators,
persistent mapping store, row-stream engine, reverse lookup).

Modelling conventions:
* Python dicts are insertion-ordered; they are embedded as association
  lists (`alFind` / `alSet` mirror `d[k]` / `d[k] = v`, with new keys
  appended at the end, exactly like dict insertion order).
* The MD5 hex digest `hashlib.md5(s.encode()).hexdigest()` is an external
  standard-library primitive, abstracted as an explicit function
  parameter `md5hex : String → String`; the engine only slices and
  concatenates its output, so every development below is parametric in it.
* Python string operations are modelled over `List Char` (code points);
  `upper` / `lower` / `isdigit` / `isalpha` / `isalnum` are modelled with
  the ASCII semantics of `Char.toUpper` etc., which agree with Python on
  the ASCII range.
* Fallible code returns `Option`: the category-style generator evaluates
  `word[0]` for each underscore-delimited segment of the column name and
  raises `IndexError` when a segment is empty; this is the `none` case.
-/

namespace Anon

/-- Python `s.lower()` (ASCII range). -/
def strLower (s : String) : String := String.mk (s.toList.map Char.toLower)

/-- Python `s.upper()` (ASCII range). -/
def strUpper (s : String) : String := String.mk (s.toList.map Char.toUpper)

/-- Python `s[:n]`. -/
def strTake (s : String) (n : Nat) : String := String.mk (s.toList.take n)

/-- Python `s[a:b]` (for `a ≤ b`). -/
def strSlice (s : String) (a b : Nat) : String := String.mk ((s.toList.take b).drop a)

/-- Python `f"{n:0{w}d}"` for a natural number: zero-pad to width `w`,
never truncating (`padNum 3 1000 = "1000"`). -/
def padNum (w n : Nat) : String :=
  let s := toString n
  String.mk (List.replicate (w - s.length) '0') ++ s

/-- Python `needle in hay` on strings: `needle` occurs as a contiguous
substring of `hay` (char-list form). -/
def hasSubstr (hay needle : List Char) : Bool :=
  match hay with
  | [] => needle.isEmpty
  | c :: t => List.isPrefixOf needle (c :: t) || hasSubstr t needle

/-- Python `s.split(sep, 1)` on a char list: `none` when `sep` does not
occur, otherwise the pieces before and after its first occurrence. -/
def splitFirst (sep : Char) : List Char → Option (List Char × List Char)
  | [] => none
  | c :: t =>
    if c = sep then some ([], t)
    else
      match splitFirst sep t with
      | none => none
      | some (a, b) => some (c :: a, b)

/-- Python `s.split(sep)[0]`: the characters before the first occurrence
of `sep` (the whole list when `sep` is absent). -/
def beforeFirst (sep : Char) : List Char → List Char
  | [] => []
  | c :: t => if c = sep then [] else c :: beforeFirst sep t

/-- Python `s.split(sep)` for a one-character separator, on char lists:
full segmentation, keeping empty segments (`"".split("_") == [""]`,
`"a__b".split("_") == ["a", "", "b"]`). -/
def splitAllChar (sep : Char) : List Char → List (List Char)
  | [] => [[]]
  | c :: t =>
    if c = sep then [] :: splitAllChar sep t
    else
      match splitAllChar sep t with
      | [] => [[c]]
      | w :: ws => (c :: w) :: ws

/-- Python `s.split(sep)` for a one-character separator, on strings. -/
def pySplit (s : String) (sep : Char) : List String :=
  (splitAllChar sep s.toList).map String.mk

/-- The characters of `v` that survive
`v.replace(' ', '').replace('-', '').replace('_', '')`. -/
def strippedChars (v : String) : List Char :=
  v.toList.filter (fun ch => !(ch = ' ' || ch = '-' || ch = '_'))

/-- Python `s.isalnum()` on the ASCII range: non-empty and all
alphanumeric (`"".isalnum()` is `False`). -/
def pyIsAlnum (l : List Char) : Bool := !l.isEmpty && l.all Char.isAlphanum

/-- `utm_indicators` from `_looks_like_utm` (source lines 89-93). -/
def utmIndicators : List String :=
  ["utm_", "campaign", "source", "medium", "term", "content"]

/-- `_looks_like_utm` (source lines 89-93): some indicator occurs in the
lower-cased column name.  The value argument is unused, as in the source. -/
def looksLikeUtm (columnName value : String) : Bool :=
  let columnLower := strLower columnName
  utmIndicators.any (fun ind => hasSubstr columnLower.toList ind.toList)

/-- `_looks_like_id` (source lines 95-104). -/
def looksLikeId (value : String) : Bool :=
  if value.length > 20 then true
  else if value.toList.count '-' ≥ 2 then true
  else if value.toList.count '_' ≥ 2 && value.toList.any Char.isDigit then true
  else false

/-- `_looks_like_category` (source lines 106-109). -/
def looksLikeCategory (value : String) : Bool :=
  value.length ≤ 50 && pyIsAlnum (strippedChars value)

/-- The classification implicit in the `if/elif` cascade of
`_create_anonymized_value` (source lines 76-83), first match wins. -/
inductive ValueClass where
  | utm | ident | category | generic
deriving DecidableEq, Repr

/-- The cascade at source lines 76-83, factored as a function. -/
def classifyOf (columnName value : String) : ValueClass :=
  if looksLikeUtm columnName value then .utm
  else if looksLikeId value then .ident
  else if looksLikeCategory value then .category
  else .generic

/-- `_anonymize_utm_style` (source lines 111-125). -/
def anonymizeUtmStyle (md5hex : String → String) (value columnName : String) : String :=
  match splitFirst '_' value.toList with
  | some (pre, suf) =>
    if pre.length < 15 then
      String.mk pre ++ "_" ++ strTake (md5hex (columnName ++ ":" ++ String.mk suf)) 8
    else
      strUpper (String.mk ((beforeFirst '_' columnName.toList).take 3)) ++ "_" ++
        strTake (md5hex (columnName ++ ":" ++ value)) 8
  | none =>
    strUpper (String.mk ((beforeFirst '_' columnName.toList).take 3)) ++ "_" ++
      strTake (md5hex (columnName ++ ":" ++ value)) 8

/-- `_anonymize_id_style` (source lines 127-143). -/
def anonymizeIdStyle (md5hex : String → String) (value columnName : String) : String :=
  if value.toList.contains '-' then
    let p0 := beforeFirst '-' value.toList
    if p0.length ≤ 6 && (!p0.isEmpty && p0.all Char.isAlpha) then
      let h := strTake (md5hex (columnName ++ ":" ++ value)) 12
      String.mk p0 ++ "-" ++ strSlice h 0 4 ++ "-" ++ strSlice h 4 8 ++ "-" ++ strSlice h 8 12
    else
      let h := strTake (md5hex (columnName ++ ":" ++ value)) 16
      strSlice h 0 4 ++ "-" ++ strSlice h 4 8 ++ "-" ++ strSlice h 8 12 ++ "-" ++ strSlice h 12 16
  else
    "ID" ++ strUpper (strTake (md5hex (columnName ++ ":" ++ value)) 12)

/-- `''.join(word[0].upper() for word in words)`: `none` models the
`IndexError` raised by `word[0]` when some segment is empty. -/
def initialsAux : List String → Option (List Char)
  | [] => some []
  | w :: ws =>
    match w.toList with
    | [] => none
    | c :: _ =>
      match initialsAux ws with
      | none => none
      | some cs => some (Char.toUpper c :: cs)

/-- `_anonymize_category_style` (source lines 145-154).  The ordinal is
`len(self.mappings.get(column_name, {})) + 1`, i.e. the size of the
column's map before this value is inserted, plus one. -/
def anonymizeCategoryStyle (value columnName : String)
    (colMap : List (String × String)) : Option String :=
  match initialsAux (pySplit columnName '_') with
  | none => none
  | some ini =>
    let colPre := if (ini.take 3).isEmpty then "CAT" else String.mk (ini.take 3)
    some (colPre ++ "_" ++ padNum 3 (colMap.length + 1))

/-- `_anonymize_generic` (source lines 156-161); `cnt` is the value of
`self.anonymization_counter` after the `+= 1`. -/
def anonymizeGeneric (md5hex : String → String) (value columnName : String)
    (cnt : Nat) : String :=
  "ANON_" ++ strTake (md5hex (columnName ++ ":" ++ value)) 6 ++ "_" ++ padNum 4 cnt

/-- A column's map: original value → pseudonym, in insertion order. -/
abbrev ColMap := List (String × String)

/-- The mapping store: column name → column map, in insertion order.
The reserved key `"_metadata"` holds metadata entries of the same
string-to-string shape (`created`, `last_updated`, `total_mappings`). -/
abbrev Store := List (String × ColMap)

/-- Python `d.get(k)` / `k in d` on an insertion-ordered dict. -/
def alFind {α : Type} : List (String × α) → String → Option α
  | [], _ => none
  | (k2, v) :: t, k => if k2 = k then some v else alFind t k

/-- Python `d[k] = v`: overwrite in place, or append a new key at the end. -/
def alSet {α : Type} : List (String × α) → String → α → List (String × α)
  | [], k, v => [(k, v)]
  | (k2, v2) :: t, k, v => if k2 = k then (k2, v) :: t else (k2, v2) :: alSet t k v

/-- The mutable state of `BusinessDataAnonymizer` used by the engine:
`self.mappings` and `self.anonymization_counter` (source lines 25-27). -/
structure AnonState where
  mappings : Store
  counter : Nat
deriving DecidableEq, Repr

/-- Source lines 68-70: `if column_name not in self.mappings:
self.mappings[column_name] = {}`. -/
def ensureCol (m : Store) (c : String) : Store :=
  match alFind m c with
  | some _ => m
  | none => alSet m c []

/-- The `if/elif` dispatch of `_create_anonymized_value` (source lines
75-83), taking the column's current map (read by the category generator)
and the current `anonymization_counter` (incremented by the generic
generator); returns the pseudonym and the new counter, or `none` for the
`IndexError` the category generator can raise. -/
def dispatchGenerator (md5hex : String → String) (v c : String)
    (cm : ColMap) (cnt : Nat) : Option (String × Nat) :=
  match classifyOf c v with
  | .utm => some (anonymizeUtmStyle md5hex v c, cnt)
  | .ident => some (anonymizeIdStyle md5hex v c, cnt)
  | .category =>
    match anonymizeCategoryStyle v c cm with
    | none => none
    | some a => some (a, cnt)
  | .generic => some (anonymizeGeneric md5hex v c (cnt + 1), cnt + 1)

/-- `_create_anonymized_value` (source lines 63-87).  (The local
`composite_key` of line 66 is computed but never used, and is omitted.)
Ensure the column's dict exists, return a stored pseudonym unchanged if
present, else classify, generate, store the new pair at the end of the
column's map and return it.  `none` models the `IndexError` that the
category-style generator can raise. -/
def createAnonymizedValue (md5hex : String → String) (v c : String)
    (st : AnonState) : Option (String × AnonState) :=
  let m1 : Store := ensureCol st.mappings c
  let cm : ColMap := (alFind m1 c).getD []
  match alFind cm v with
  | some p => some (p, { st with mappings := m1 })
  | none =>
    match dispatchGenerator md5hex v c cm st.counter with
    | none => none
    | some (a, cnt2) =>
      some (a, { mappings := alSet m1 c (cm ++ [(v, a)]), counter := cnt2 })

/-- A CSV row as `csv.DictReader` yields it: column name / cell value
pairs in header order.  A missing or `None` cell is modelled as `""`
(both are falsy, hence preserved, in the source). -/
abbrev Row := List (String × String)

/-- One cell of the loop body at source lines 228-234: preserved columns
and empty values are copied unchanged, everything else goes through
`_create_anonymized_value`. -/
def anonymizeCell (md5hex : String → String) (preserved : List String)
    (c v : String) (st : AnonState) : Option (String × AnonState) :=
  if c ∈ preserved ∨ v = "" then some (v, st)
  else createAnonymizedValue md5hex v c st

/-- One row of the loop at source lines 225-236: cells processed left to
right, threading the store; an exception in any cell aborts the run. -/
def anonymizeRow (md5hex : String → String) (preserved : List String)
    (st : AnonState) : Row → Option (Row × AnonState)
  | [] => some ([], st)
  | (c, v) :: rest =>
    match anonymizeCell md5hex preserved c v st with
    | none => none
    | some (v2, st2) =>
      match anonymizeRow md5hex preserved st2 rest with
      | none => none
      | some (r2, st3) => some ((c, v2) :: r2, st3)

/-- The full row loop of `anonymize_csv` (source lines 225-237): rows
processed in order, one output row per input row. -/
def anonymizeRows (md5hex : String → String) (preserved : List String)
    (st : AnonState) : List Row → Option (List Row × AnonState)
  | [] => some ([], st)
  | r :: rs =>
    match anonymizeRow md5hex preserved st r with
    | none => none
    | some (r2, st2) =>
      match anonymizeRows md5hex preserved st2 rs with
      | none => none
      | some (rs2, st3) => some (r2 :: rs2, st3)

/-- `_load_mappings` (source lines 46-51): the file's contents when it
exists, else a fresh store holding only the metadata creation timestamp
(`now` abstracts `datetime.now().isoformat()`). -/
def loadMappings (now : String) (disk : Option Store) : Store :=
  match disk with
  | some m => m
  | none => [("_metadata", [("created", now)])]

/-- Engine state right after `__init__`: loaded store, counter zero
(source lines 25-27). -/
def initState (now : String) (disk : Option Store) : AnonState :=
  { mappings := loadMappings now disk, counter := 0 }

/-- `sum(len(v) for k, v in self.mappings.items() if k != "_metadata")`
(source lines 56-58). -/
def totalMappings (m : Store) : Nat :=
  (m.filter (fun e => e.1 != "_metadata")).foldl (fun a e => a + e.2.length) 0

/-- `_save_mappings` (source lines 53-61): update the metadata block's
`last_updated` timestamp and `total_mappings` count, then write the whole
store.  `none` models the `KeyError` raised when the loaded store has no
`"_metadata"` key. -/
def saveMappings (now2 : String) (m : Store) : Option Store :=
  match alFind m "_metadata" with
  | none => none
  | some md =>
    let md2 := alSet (alSet md "last_updated" now2) "total_mappings"
      (toString (totalMappings m))
    some (alSet m "_metadata" md2)

/-- The on-disk mapping file across one `anonymize_csv` call (source
lines 184-243): the row loop runs inside the `with` block and
`_save_mappings` only runs after it completes, so an exception anywhere
before the final `json.dump` leaves the file exactly as it was. -/
def mappingFileAfterRun (md5hex : String → String) (now now2 : String)
    (preserved : List String) (disk : Option Store) (rows : List Row) :
    Option Store :=
  match anonymizeRows md5hex preserved (initState now disk) rows with
  | none => disk
  | some (_, stf) =>
    match saveMappings now2 stf.mappings with
    | none => disk
    | some saved => some saved

/-- Inner scan of `reverse_lookup`: first original value in the column
map whose pseudonym equals the query. -/
def findOrig : ColMap → String → Option String
  | [], _ => none
  | (o, a) :: t, x => if a = x then some o else findOrig t x

/-- The all-columns scan of `reverse_lookup` (source lines 273-279):
every column except `"_metadata"`, first match wins, annotated with the
column name. -/
def scanAll : Store → String → Option String
  | [], _ => none
  | (col, cm) :: t, x =>
    if col = "_metadata" then scanAll t x
    else
      match findOrig cm x with
      | some o => some (o ++ " (from column: " ++ col ++ ")")
      | none => scanAll t x

/-- `reverse_lookup` (source lines 265-281).  Python's `if column_name:`
is a truthiness test: both `None` and the empty string fall through to
the all-columns scan, modelled by `(columnName.getD "") = ""`.  With a
truthy hint, only that column's map is scanned (the hint `"_metadata"`
is not excluded there, exactly as in the source); the hint-less scan
skips `"_metadata"`.  A miss returns a normal result string. -/
def reverseLookup (m : Store) (anonymizedValue : String)
    (columnName : Option String) : String :=
  let hint := columnName.getD ""
  if hint = "" then
    match scanAll m anonymizedValue with
    | some o => o
    | none => "No mapping found for: " ++ anonymizedValue
  else
    match alFind m hint with
    | some cm =>
      match findOrig cm anonymizedValue with
      | some o => o
      | none => "No mapping found for: " ++ anonymizedValue
    | none => "No mapping found for: " ++ anonymizedValue

/-! ### Spec-side readings of the classifier conditions (§4.1), used to
compare the claims' wording with the code of the classifier. -/

/-- Claim/spec wording of condition 1: the lower-cased column name
contains one of the fixed indicator substrings. -/
def utmSpec (c : String) : Prop :=
  ∃ ind ∈ utmIndicators, ind.toList <:+: (strLower c).toList

/-- Claim/spec wording of condition 2: length over 20, or at least two
hyphens, or at least two underscores together with at least one digit. -/
def idSpec (v : String) : Prop :=
  20 < v.length ∨ 2 ≤ v.toList.count '-' ∨
    (2 ≤ v.toList.count '_' ∧ ∃ ch ∈ v.toList, ch.isDigit)

/-- Condition 3 exactly as the claim words it: at most 50 characters
and, with spaces, hyphens and underscores removed, every remaining
character is alphanumeric (vacuously true when nothing remains). -/
def catSpecClaim (v : String) : Prop :=
  v.length ≤ 50 ∧ ∀ ch ∈ strippedChars v, ch.isAlphanum

/-- Condition 3 as the code has it: additionally at least one character
must remain after stripping, because Python's `"".isalnum()` is `False`. -/
def catSpecAmended (v : String) : Prop :=
  v.length ≤ 50 ∧ strippedChars v ≠ [] ∧ ∀ ch ∈ strippedChars v, ch.isAlphanum

/-! ### Spec-side reading of the engine's per-cell contract (§4.4), used
to compare the claims' wording with the row loop of `anonymize_csv`. -/

/-- The spec's per-row contract, cell by cell in order: a preserved or
empty cell is copied unchanged, any other cell becomes the pseudonym of
the read-through-or-create path applied at the store state reached so
far; states are threaded left to right. -/
def rowSpec (md5hex : String → String) (preserved : List String) :
    AnonState → Row → Row → AnonState → Prop
  | st, [], out, stf => out = [] ∧ stf = st
  | st, (c, v) :: rest, out, stf =>
    if c ∈ preserved ∨ v = "" then
      ∃ o2, out = (c, v) :: o2 ∧ rowSpec md5hex preserved st rest o2 stf
    else
      ∃ w st2 o2, createAnonymizedValue md5hex v c st = some (w, st2) ∧
        out = (c, w) :: o2 ∧ rowSpec md5hex preserved st2 rest o2 stf

/-- The spec's row-stream contract: one output row per input row, in
order, each satisfying `rowSpec`, with the store threaded through. -/
def rowsSpec (md5hex : String → String) (preserved : List String) :
    AnonState → List Row → List Row → AnonState → Prop
  | st, [], out, stf => out = [] ∧ stf = st
  | st, r :: rs, out, stf =>
    ∃ r2 st2 o2, rowSpec md5hex preserved st r r2 st2 ∧
      out = r2 :: o2 ∧ rowsSpec md5hex preserved st2 rs o2 stf

/-- Two engine states that agree on the counter and on every column
other than the reserved `"_metadata"` key (whose contents hold run-local
timestamps). -/
def agreeOffMeta (st1 st2 : AnonState) : Prop :=
  st1.counter = st2.counter ∧
    ∀ k, k ≠ "_metadata" → alFind st1.mappings k = alFind st2.mappings k

/-! ### Association-list lemmas -/

theorem alFind_alSet {α : Type} (m : List (String × α)) (c k : String) (x : α) :
    alFind (alSet m c x) k = if k = c then some x else alFind m k := by
  induction m with
  | nil => by_cases h : k = c <;> simp_all [alSet, alFind, eq_comm]
  | cons e t ih =>
    obtain ⟨k2, v2⟩ := e
    by_cases h2 : k2 = c <;> by_cases h : k2 = k <;>
      simp_all [alSet, alFind, eq_comm]

theorem alFind_append_left {α : Type} (m l : List (String × α)) (k : String)
    (x : α) (h : alFind m k = some x) : alFind (m ++ l) k = some x := by
  induction m with
  | nil => simp [alFind] at h
  | cons e t ih =>
    obtain ⟨k2, v2⟩ := e
    simp only [alFind, List.cons_append] at h ⊢
    by_cases h2 : k2 = k
    · simpa [h2] using h
    · rw [if_neg h2] at h ⊢; exact ih h

theorem alFind_append_self {α : Type} (m : List (String × α)) (k : String)
    (x : α) (h : alFind m k = none) : alFind (m ++ [(k, x)]) k = some x := by
  induction m with
  | nil => simp [alFind]
  | cons e t ih =>
    obtain ⟨k2, v2⟩ := e
    simp only [alFind, List.cons_append] at h ⊢
    by_cases h2 : k2 = k
    · simp [h2] at h
    · rw [if_neg h2] at h ⊢; exact ih h

theorem alFind_ensureCol_self (m : Store) (c : String) :
    alFind (ensureCol m c) c = some ((alFind m c).getD []) := by
  unfold ensureCol
  cases h : alFind m c <;> simp [h, alFind_alSet]

theorem alFind_ensureCol_ne (m : Store) (c k : String) (h : k ≠ c) :
    alFind (ensureCol m c) k = alFind m k := by
  unfold ensureCol
  cases h2 : alFind m c <;> simp [h2, alFind_alSet, h]

theorem ensureCol_of_found (m : Store) (c : String) (cm : ColMap)
    (h : alFind m c = some cm) : ensureCol m c = m := by
  unfold ensureCol; rw [h]

/-! ### Unfolding lemmas for `createAnonymizedValue` -/

theorem create_cm (m : Store) (c : String) :
    (alFind (ensureCol m c) c).getD [] = (alFind m c).getD [] := by
  rw [alFind_ensureCol_self]; rfl

theorem create_found (md5hex : String → String) (st : AnonState)
    (c v p : String) (h : alFind ((alFind st.mappings c).getD []) v = some p) :
    createAnonymizedValue md5hex v c st =
      some (p, { st with mappings := ensureCol st.mappings c }) := by
  simp only [createAnonymizedValue, create_cm, h]

theorem create_miss_none (md5hex : String → String) (st : AnonState)
    (c v : String) (h : alFind ((alFind st.mappings c).getD []) v = none)
    (hd : dispatchGenerator md5hex v c ((alFind st.mappings c).getD [])
      st.counter = none) :
    createAnonymizedValue md5hex v c st = none := by
  simp only [createAnonymizedValue, create_cm, h, hd]

theorem create_miss_some (md5hex : String → String) (st : AnonState)
    (c v a : String) (cnt2 : Nat)
    (h : alFind ((alFind st.mappings c).getD []) v = none)
    (hd : dispatchGenerator md5hex v c ((alFind st.mappings c).getD [])
      st.counter = some (a, cnt2)) :
    createAnonymizedValue md5hex v c st =
      some (a, AnonState.mk (alSet (ensureCol st.mappings c) c
        ((alFind st.mappings c).getD [] ++ [(v, a)])) cnt2) := by
  simp only [createAnonymizedValue, create_cm, h, hd]

/-- Whatever `_create_anonymized_value` returns is recorded in the
column's map of the state it returns. -/
theorem alFind_create (md5hex : String → String) (st st2 : AnonState)
    (c v p : String) (h : createAnonymizedValue md5hex v c st = some (p, st2)) :
    ∃ cm2, alFind st2.mappings c = some cm2 ∧ alFind cm2 v = some p := by
  cases h2 : alFind ((alFind st.mappings c).getD []) v with
  | some q =>
    rw [create_found md5hex st c v q h2] at h
    simp only [Option.some.injEq, Prod.mk.injEq] at h
    obtain ⟨hp, hst⟩ := h
    refine ⟨(alFind st.mappings c).getD [], ?_, ?_⟩
    · rw [← hst]
      exact alFind_ensureCol_self st.mappings c
    · rw [← hp]; exact h2
  | none =>
    cases h3 : dispatchGenerator md5hex v c ((alFind st.mappings c).getD [])
        st.counter with
    | none =>
      rw [create_miss_none md5hex st c v h2 h3] at h
      exact absurd h (by simp)
    | some acnt =>
      obtain ⟨a, cnt2⟩ := acnt
      rw [create_miss_some md5hex st c v a cnt2 h2 h3] at h
      simp only [Option.some.injEq, Prod.mk.injEq] at h
      obtain ⟨hp, hst⟩ := h
      refine ⟨(alFind st.mappings c).getD [] ++ [(v, p)], ?_, ?_⟩
      · rw [← hst]
        simp [alFind_alSet, hp]
      · exact alFind_append_self _ v p h2

/-! ### Concrete data for witnesses and counterexamples -/

/-- A stand-in digest function for concrete witnesses; the claims'
theorems are parametric in the digest, so any concrete instance works. -/
def mdW : String → String := fun _ => "0123456789abcdef0123456789abcdef"

/-- A tiny concrete engine state with one stored mapping. -/
def stW : AnonState := ⟨[("col", [("a", "X")])], 0⟩

/-- A concrete state for the C4 witness: column `"region"` already holds
one mapping. -/
def stW4 : AnonState := ⟨[("region", [("South", "R_001")])], 0⟩

/-- State of the C5 counterexample run after anonymizing `"a_x"` in the
UTM-like column `"source"` with the constant stand-in digest `mdW`. -/
def stC1 : AnonState :=
  ⟨[("_metadata", [("created", "T")]), ("source", [("a_x", "a_01234567")])], 0⟩

/-- State of the C5 counterexample run after also anonymizing `"a_y"`:
both values carry the same pseudonym. -/
def stC2 : AnonState :=
  ⟨[("_metadata", [("created", "T")]),
    ("source", [("a_x", "a_01234567"), ("a_y", "a_01234567")])], 0⟩

/-! ### Classifier characterization lemmas -/

theorem hasSubstr_iff (needle hay : List Char) :
    hasSubstr hay needle = true ↔ needle <:+: hay := by
  induction hay with
  | nil =>
    simp only [hasSubstr, List.isEmpty_iff, List.infix_nil]
  | cons c t ih =>
    simp only [hasSubstr, Bool.or_eq_true, List.isPrefixOf_iff_prefix, ih,
      List.infix_cons_iff]

theorem looksLikeUtm_iff (c v : String) :
    looksLikeUtm c v = true ↔ utmSpec c := by
  simp only [looksLikeUtm, utmSpec, List.any_eq_true, hasSubstr_iff]

theorem looksLikeId_iff (v : String) : looksLikeId v = true ↔ idSpec v := by
  unfold looksLikeId idSpec
  split_ifs with h1 h2 h3
  · simpa using Or.inl h1
  · simpa using Or.inr (Or.inl h2)
  · simp only [Bool.and_eq_true, decide_eq_true_eq, List.any_eq_true] at h3
    simpa using Or.inr (Or.inr h3)
  · simp only [Bool.and_eq_true, decide_eq_true_eq, List.any_eq_true] at h3
    simp only [Bool.false_eq_true, false_iff]
    rintro (h | h | h)
    · exact h1 h
    · exact h2 h
    · exact h3 h

theorem looksLikeCategory_iff (v : String) :
    looksLikeCategory v = true ↔ catSpecAmended v := by
  unfold looksLikeCategory catSpecAmended pyIsAlnum
  simp [List.all_eq_true, List.isEmpty_iff, and_assoc]

theorem classify_characterization (c v : String) :
    (classifyOf c v = ValueClass.utm ↔ utmSpec c) ∧
    (classifyOf c v = ValueClass.ident ↔ ¬utmSpec c ∧ idSpec v) ∧
    (classifyOf c v = ValueClass.category ↔
      ¬utmSpec c ∧ ¬idSpec v ∧ catSpecAmended v) ∧
    (classifyOf c v = ValueClass.generic ↔
      ¬utmSpec c ∧ ¬idSpec v ∧ ¬catSpecAmended v) := by
  by_cases h1 : utmSpec c
  · have b1 : looksLikeUtm c v = true := (looksLikeUtm_iff c v).mpr h1
    simp [classifyOf, b1, h1]
  · have b1 : looksLikeUtm c v = false :=
      Bool.not_eq_true _ ▸ fun hb => h1 ((looksLikeUtm_iff c v).mp hb)
    by_cases h2 : idSpec v
    · have b2 : looksLikeId v = true := (looksLikeId_iff v).mpr h2
      simp [classifyOf, b1, b2, h1, h2]
    · have b2 : looksLikeId v = false :=
        Bool.not_eq_true _ ▸ fun hb => h2 ((looksLikeId_iff v).mp hb)
      by_cases h3 : catSpecAmended v
      · have b3 : looksLikeCategory v = true := (looksLikeCategory_iff v).mpr h3
        simp [classifyOf, b1, b2, b3, h1, h2, h3]
      · have b3 : looksLikeCategory v = false :=
          Bool.not_eq_true _ ▸ fun hb => h3 ((looksLikeCategory_iff v).mp hb)
        simp [classifyOf, b1, b2, b3, h1, h2, h3]

/-! ### Zero-padding lemmas -/

theorem mk_nil_append (s : String) : String.mk [] ++ s = s := by
  cases s; rfl

/-- A Python `:0{w}d` field never truncates: when the decimal rendering
is at least as wide as the field, it is emitted unchanged. -/
theorem padNum_of_wide (w n : Nat) (h : w ≤ (toString n).length) :
    padNum w n = toString n := by
  show String.mk (List.replicate (w - (toString n).length) '0') ++ toString n
    = toString n
  rw [Nat.sub_eq_zero_of_le h]
  exact mk_nil_append _

theorem padNum_length (w n : Nat) :
    (padNum w n).length = max w (toString n).length := by
  show (String.mk (List.replicate (w - (toString n).length) '0')
    ++ toString n).length = _
  rw [String.length_append]
  rw [show ∀ l : List Char, (String.mk l).length = l.length from fun l => rfl]
  rw [List.length_replicate, Nat.sub_add_eq_max]

/-! ### Claim theorems -/

/-- C1: if the pair `(column, original value)` is already present in the
mapping store, `_create_anonymized_value` returns the stored pseudonym
and leaves the state (store and counter) completely unchanged — no
classification or generation runs; consequently a second call with the
same pair returns the same pseudonym as the first and is a no-op on the
store. -/
theorem claim_C1 :
    (∀ (md5hex : String → String) (st : AnonState) (c v : String)
        (cm : ColMap) (p : String),
      alFind st.mappings c = some cm → alFind cm v = some p →
      createAnonymizedValue md5hex v c st = some (p, st)) ∧
    (∀ (md5hex : String → String) (st st2 : AnonState) (c v p : String),
      createAnonymizedValue md5hex v c st = some (p, st2) →
      createAnonymizedValue md5hex v c st2 = some (p, st2)) := by
  have part1 : ∀ (md5hex : String → String) (st : AnonState) (c v : String)
      (cm : ColMap) (p : String),
      alFind st.mappings c = some cm → alFind cm v = some p →
      createAnonymizedValue md5hex v c st = some (p, st) := by
    intro md5hex st c v cm p h1 h2
    have h2b : alFind ((alFind st.mappings c).getD []) v = some p := by
      rw [h1]; exact h2
    rw [create_found md5hex st c v p h2b,
      ensureCol_of_found st.mappings c cm h1]
  refine ⟨part1, ?_⟩
  intro md5hex st st2 c v p h
  obtain ⟨cm2, hc, hv⟩ := alFind_create md5hex st st2 c v p h
  exact part1 md5hex st2 c v cm2 p hc hv

/-- C3 counterexample: for column `"x"` and the non-empty value `"__"`,
the claim's conditions classify the value as category-like (not UTM-like,
not identifier-like — two underscores but no digit — at most 50 chars,
and every character left after stripping spaces/hyphens/underscores is
vacuously alphanumeric since none are left), yet the code classifies it
as generic, because Python's `"".isalnum()` is `False`. -/
theorem claim_C3_counterexample :
    ¬ utmSpec "x" ∧ ¬ idSpec "__" ∧ catSpecClaim "__" ∧ ("__" : String) ≠ "" ∧
      classifyOf "x" "__" = ValueClass.generic := by
  refine ⟨?_, ?_, ?_, by decide, by decide⟩
  · unfold utmSpec; decide
  · unfold idSpec; decide
  · unfold catSpecClaim; decide

/-- C3 (amended): for every column name and non-empty value, the
classification follows exactly the claimed first-match order, with the
category condition amended to require that at least one character remain
after stripping spaces, hyphens and underscores (Python's `isalnum` is
false on the empty string). -/
theorem claim_C3 : ∀ c v : String, v ≠ "" →
    (classifyOf c v = ValueClass.utm ↔ utmSpec c) ∧
    (classifyOf c v = ValueClass.ident ↔ ¬utmSpec c ∧ idSpec v) ∧
    (classifyOf c v = ValueClass.category ↔
      ¬utmSpec c ∧ ¬idSpec v ∧ catSpecAmended v) ∧
    (classifyOf c v = ValueClass.generic ↔
      ¬utmSpec c ∧ ¬idSpec v ∧ ¬catSpecAmended v) :=
  fun c v _ => classify_characterization c v

/-- Witness for C3 at concrete input: `"active"` in the non-UTM column
`"status"` is classified category-like. -/
theorem claim_C3_witness :
    classifyOf "status" "active" = ValueClass.category ↔
      ¬utmSpec "status" ∧ ¬idSpec "active" ∧ catSpecAmended "active" :=
  (claim_C3 "status" "active" (by decide)).2.2.1

/-- C4: when a not-yet-mapped value of a column is classified
category-like, its pseudonym ends in an ordinal equal to the current size
of that column's map plus one, zero-padded to 3 digits; the new pair is
appended at the end of the column's map (so the n-th distinct value seen
gets ordinal n, in first-seen order, independent of any value ordering);
and the padded field is never truncated below its natural width
(`padNum 3 1000 = "1000"`, not `"000"`). -/
theorem claim_C4 : ∀ (md5hex : String → String) (st st2 : AnonState)
    (c v p : String) (cm : ColMap),
    cm = (alFind st.mappings c).getD [] →
    alFind cm v = none →
    classifyOf c v = ValueClass.category →
    createAnonymizedValue md5hex v c st = some (p, st2) →
    (∃ pre, p = pre ++ "_" ++ padNum 3 (cm.length + 1)) ∧
    alFind st2.mappings c = some (cm ++ [(v, p)]) ∧
    st2.counter = st.counter ∧
    (∀ w n : Nat, w ≤ (toString n).length → padNum w n = toString n) ∧
    (∀ w n : Nat, (padNum w n).length = max w (toString n).length) ∧
    padNum 3 1000 = "1000" := by
  intro md5hex st st2 c v p cm hcm hmiss hclass hcreate
  subst hcm
  cases hcat : anonymizeCategoryStyle v c ((alFind st.mappings c).getD []) with
  | none =>
    have hd : dispatchGenerator md5hex v c ((alFind st.mappings c).getD [])
        st.counter = none := by
      unfold dispatchGenerator; rw [hclass, hcat]
    rw [create_miss_none md5hex st c v hmiss hd] at hcreate
    exact absurd hcreate (by simp)
  | some a =>
    have hd : dispatchGenerator md5hex v c ((alFind st.mappings c).getD [])
        st.counter = some (a, st.counter) := by
      unfold dispatchGenerator; rw [hclass, hcat]
    rw [create_miss_some md5hex st c v a st.counter hmiss hd] at hcreate
    simp only [Option.some.injEq, Prod.mk.injEq] at hcreate
    obtain ⟨hp, hst⟩ := hcreate
    refine ⟨?_, ?_, ?_, padNum_of_wide, padNum_length, by decide⟩
    · unfold anonymizeCategoryStyle at hcat
      cases hini : initialsAux (pySplit c '_') with
      | none => rw [hini] at hcat; exact absurd hcat (by simp)
      | some ini =>
        rw [hini] at hcat
        simp only [Option.some.injEq] at hcat
        exact ⟨_, hp ▸ hcat.symm⟩
    · rw [← hst]
      simp [alFind_alSet, hp]
    · rw [← hst]

/-- Witness for C4 at concrete input: the second distinct value of the
category column `"region"` receives ordinal `002`. -/
theorem claim_C4_witness :
    (∃ pre, "R_002" = pre ++ "_" ++ padNum 3 ([("South", "R_001")].length + 1)) ∧
      alFind (⟨[("region", [("South", "R_001"), ("North", "R_002")])], 0⟩ :
        AnonState).mappings "region" =
        some ([("South", "R_001")] ++ [("North", "R_002")]) :=
  let h := claim_C4 mdW stW4
    ⟨[("region", [("South", "R_001"), ("North", "R_002")])], 0⟩
    "region" "North" "R_002" [("South", "R_001")] rfl rfl (by decide) (by decide)
  ⟨h.1, h.2.1⟩

/-- When every underscore-delimited segment of the column name is
non-empty, the initials computation of the category generator succeeds. -/
theorem initialsAux_isSome (ws : List String) (h : ∀ w ∈ ws, w ≠ "") :
    ∃ ini, initialsAux ws = some ini := by
  induction ws with
  | nil => exact ⟨[], rfl⟩
  | cons w ws ih =>
    obtain ⟨data⟩ := w
    have hD : data ≠ [] := by
      intro hd
      exact h ⟨data⟩ (List.mem_cons_self _ _) (by rw [hd])
    obtain ⟨ini, hini⟩ := ih (fun w2 hw2 => h w2 (List.mem_cons_of_mem _ hw2))
    cases data with
    | nil => exact absurd rfl hD
    | cons ch t =>
      refine ⟨Char.toUpper ch :: ini, ?_⟩
      simp [initialsAux, hini]

/-- C6 counterexample: for the valid column name `"_status"` (leading
underscore) and the non-empty value `"active"`, the category-style
generator raises `IndexError` (`word[0]` on the empty first segment), so
`_create_anonymized_value` raises rather than returning a string. -/
theorem claim_C6_counterexample :
    ("active" : String) ≠ "" ∧
    anonymizeCategoryStyle "active" "_status" [] = none ∧
    createAnonymizedValue mdW "active" "_status" (initState "T" none) = none := by
  refine ⟨by decide, by decide, by decide⟩

/-- C6 (amended): for every column name all of whose underscore-delimited
segments are non-empty, and every non-empty value, the generators return
a string and never raise: the UTM-style, identifier-style and generic
generators are total functions by construction, the category-style
generator succeeds on every column map, and the whole
read-through-or-create path returns a value. -/
theorem claim_C6 : ∀ (md5hex : String → String) (st : AnonState)
    (v c : String), v ≠ "" → (∀ w ∈ pySplit c '_', w ≠ "") →
    (∀ colMap : ColMap, (anonymizeCategoryStyle v c colMap).isSome) ∧
    (createAnonymizedValue md5hex v c st).isSome := by
  intro md5hex st v c _ hseg
  have hcat : ∀ colMap : ColMap, (anonymizeCategoryStyle v c colMap).isSome := by
    intro cmap
    obtain ⟨ini, hini⟩ := initialsAux_isSome (pySplit c '_') hseg
    unfold anonymizeCategoryStyle
    rw [hini]
    rfl
  refine ⟨hcat, ?_⟩
  cases h2 : alFind ((alFind st.mappings c).getD []) v with
  | some p => rw [create_found md5hex st c v p h2]; rfl
  | none =>
    have hd : ∃ a cnt2, dispatchGenerator md5hex v c
        ((alFind st.mappings c).getD []) st.counter = some (a, cnt2) := by
      unfold dispatchGenerator
      cases hclass : classifyOf c v
      · exact ⟨_, _, rfl⟩
      · exact ⟨_, _, rfl⟩
      · obtain ⟨a, ha⟩ :=
          Option.isSome_iff_exists.mp (hcat ((alFind st.mappings c).getD []))
        rw [ha]
        exact ⟨_, _, rfl⟩
      · exact ⟨_, _, rfl⟩
    obtain ⟨a, cnt2, hd2⟩ := hd
    rw [create_miss_some md5hex st c v a cnt2 h2 hd2]
    rfl

/-- Witness for C6 at concrete input: column `"status"`, value
`"active"`. -/
theorem claim_C6_witness :
    (∀ colMap : ColMap, (anonymizeCategoryStyle "active" "status" colMap).isSome) ∧
    (createAnonymizedValue mdW "active" "status" stW).isSome :=
  claim_C6 mdW stW "active" "status" (by decide) (by decide)

/-- C9: against an empty store, value `"social_facebook"` in the
UTM-like column `"campaign_source"` becomes `"social_"` followed by the
first 8 characters of the digest of `"campaign_source:facebook"`: the
value is split at its first underscore, the prefix `"social"` (length 6,
under 15) is kept verbatim, and the digest input joins the column name
with the suffix only.  Parametric in the digest and in the metadata
creation timestamp. -/
theorem claim_C9 : ∀ (md5hex : String → String) (now : String),
    ∃ st2, createAnonymizedValue md5hex "social_facebook" "campaign_source"
      (initState now none) =
      some ("social_" ++ strTake (md5hex "campaign_source:facebook") 8, st2) :=
  fun _ _ => ⟨_, rfl⟩

/-- `reverse_lookup` with a truthy (non-empty) column hint searches only
that column's map. -/
theorem reverseLookup_hint (m : Store) (p c : String) (hc : c ≠ "") :
    reverseLookup m p (some c) =
      (match alFind m c with
       | some cm =>
         match findOrig cm p with
         | some o => o
         | none => "No mapping found for: " ++ p
       | none => "No mapping found for: " ++ p) := by
  unfold reverseLookup
  simp only [Option.getD_some]
  rw [if_neg hc]

/-- `reverse_lookup` without a hint (or with the falsy empty-string
hint) scans all columns. -/
theorem reverseLookup_scan (m : Store) (p : String) :
    reverseLookup m p none =
      (match scanAll m p with
       | some o => o
       | none => "No mapping found for: " ++ p) := by
  rfl

/-- If no non-`"_metadata"` column of the store maps any original value
to the queried pseudonym, the all-columns scan finds nothing. -/
theorem scanAll_none (m : Store) (p : String)
    (h : ∀ c cm, (c, cm) ∈ m → c ≠ "_metadata" → findOrig cm p = none) :
    scanAll m p = none := by
  induction m with
  | nil => rfl
  | cons e t ih =>
    obtain ⟨c, cm⟩ := e
    have iht : scanAll t p = none :=
      ih (fun c2 cm2 hm => h c2 cm2 (List.mem_cons_of_mem _ hm))
    by_cases hc : c = "_metadata"
    · simp [scanAll, hc, iht]
    · have hf : findOrig cm p = none := h c cm (List.mem_cons_self _ _) hc
      simp [scanAll, hc, hf, iht]

/-- C10: a hint-less `reverse_lookup` never consults entries stored
under the reserved `"_metadata"` key: prepending any `"_metadata"` entry
to the store leaves the all-columns scan unchanged, and when the queried
pseudonym occurs only under `"_metadata"` (no other column maps anything
to it), the lookup reports the normal not-found result. -/
theorem claim_C10 : ∀ (m : Store) (p : String),
    (∀ md : ColMap, scanAll (("_metadata", md) :: m) p = scanAll m p) ∧
    ((∀ c cm, (c, cm) ∈ m → c ≠ "_metadata" → findOrig cm p = none) →
      reverseLookup m p none = "No mapping found for: " ++ p) := by
  intro m p
  constructor
  · intro md
    simp [scanAll]
  · intro h
    rw [reverseLookup_scan m p, scanAll_none m p h]

/-- Witness for C10 at concrete input: a pseudonym equal to a metadata
timestamp recorded only under `"_metadata"` is reported not found by the
hint-less lookup. -/
theorem claim_C10_witness :
    reverseLookup [("_metadata", [("created", "T")])] "T" none =
      "No mapping found for: " ++ "T" :=
  (claim_C10 [("_metadata", [("created", "T")])] "T").2 (by
    intro c cm hm hc
    simp only [List.mem_singleton, Prod.mk.injEq] at hm
    exact absurd hm.1 hc)

/-- An association-list hit is a member of the list. -/
theorem alFind_mem {α : Type} (l : List (String × α)) (k : String) (x : α)
    (h : alFind l k = some x) : (k, x) ∈ l := by
  induction l with
  | nil => simp [alFind] at h
  | cons e t ih =>
    obtain ⟨k2, v2⟩ := e
    by_cases h2 : k2 = k
    · subst h2
      simp [alFind] at h
      simp [h]
    · rw [show alFind ((k2, v2) :: t) k = alFind t k from by simp [alFind, h2]] at h
      exact List.mem_cons_of_mem _ (ih h)

/-- If `(v, p)` is in the column map and every entry carrying pseudonym
`p` carries original value `v`, the reverse scan returns `v`. -/
theorem findOrig_eq (l : ColMap) (p v : String) (hmem : (v, p) ∈ l)
    (huniq : ∀ o a, (o, a) ∈ l → a = p → o = v) :
    findOrig l p = some v := by
  induction l with
  | nil => simp at hmem
  | cons e t ih =>
    obtain ⟨o, a⟩ := e
    by_cases ha : a = p
    · have ho : o = v := huniq o a (List.mem_cons_self _ _) ha
      simp [findOrig, ha, ho]
    · simp only [findOrig, if_neg ha]
      apply ih
      · rcases List.mem_cons.mp hmem with h | h
        · exact absurd ((congrArg Prod.snd h).symm) ha
        · exact h
      · exact fun o2 a2 hm2 => huniq o2 a2 (List.mem_cons_of_mem _ hm2)

/-- C5 counterexample: pseudonym collisions break the round trip.  In a
run with a (collision-producing) digest, column `"source"` assigns the
same pseudonym `"a_01234567"` to both `"a_x"` and `"a_y"` (UTM style
keeps the prefix `"a"` and appends the digest slice); `reverse_lookup`
on the pseudonym produced for `("source", "a_y")` with hint `"source"`
returns `"a_x"`, not `"a_y"`.  The code stores both pairs without
detecting the collision, exactly as §9 of the spec concedes. -/
theorem claim_C5_counterexample :
    createAnonymizedValue mdW "a_x" "source" (initState "T" none) =
      some ("a_01234567", stC1) ∧
    createAnonymizedValue mdW "a_y" "source" stC1 =
      some ("a_01234567", stC2) ∧
    reverseLookup stC2.mappings "a_01234567" (some "source") = "a_x" ∧
    ("a_x" : String) ≠ "a_y" := by
  refine ⟨by decide, by decide, by decide, by decide⟩

/-- C5 (amended): for every column `C` and non-empty value `V` put
through the read-through-or-create path, `reverse_lookup` of the
resulting pseudonym with column hint `C` returns `V`, provided no other
value already stored in that column carries the same pseudonym (absent a
collision, the round trip holds); and a reverse-lookup miss is not an
error but returns the normal not-found result string, whether the hinted
column is absent or merely lacks the pseudonym. -/
theorem claim_C5 :
    (∀ (md5hex : String → String) (st st2 : AnonState) (c v p : String),
      v ≠ "" → c ≠ "" →
      createAnonymizedValue md5hex v c st = some (p, st2) →
      (∀ o a, (o, a) ∈ (alFind st.mappings c).getD [] → a = p → o = v) →
      reverseLookup st2.mappings p (some c) = v) ∧
    (∀ (m : Store) (q c2 : String), c2 ≠ "" → alFind m c2 = none →
      reverseLookup m q (some c2) = "No mapping found for: " ++ q) ∧
    (∀ (m : Store) (q c2 : String) (cm : ColMap), c2 ≠ "" →
      alFind m c2 = some cm → findOrig cm q = none →
      reverseLookup m q (some c2) = "No mapping found for: " ++ q) := by
  refine ⟨?_, ?_, ?_⟩
  · intro md5hex st st2 c v p _ hcne hcreate huniq
    cases h2 : alFind ((alFind st.mappings c).getD []) v with
    | some q =>
      rw [create_found md5hex st c v q h2] at hcreate
      simp only [Option.some.injEq, Prod.mk.injEq] at hcreate
      obtain ⟨hp, hst⟩ := hcreate
      have hcol : alFind st2.mappings c =
          some ((alFind st.mappings c).getD []) := by
        rw [← hst]
        exact alFind_ensureCol_self st.mappings c
      have hmem : (v, p) ∈ (alFind st.mappings c).getD [] :=
        alFind_mem _ v p (hp ▸ h2)
      have hfo : findOrig ((alFind st.mappings c).getD []) p = some v :=
        findOrig_eq _ p v hmem huniq
      simp only [reverseLookup_hint st2.mappings p c hcne, hcol, hfo]
    | none =>
      cases h3 : dispatchGenerator md5hex v c ((alFind st.mappings c).getD [])
          st.counter with
      | none =>
        rw [create_miss_none md5hex st c v h2 h3] at hcreate
        exact absurd hcreate (by simp)
      | some acnt =>
        obtain ⟨a, cnt2⟩ := acnt
        rw [create_miss_some md5hex st c v a cnt2 h2 h3] at hcreate
        simp only [Option.some.injEq, Prod.mk.injEq] at hcreate
        obtain ⟨hp, hst⟩ := hcreate
        have hcol : alFind st2.mappings c =
            some ((alFind st.mappings c).getD [] ++ [(v, p)]) := by
          rw [← hst]
          simp [alFind_alSet, hp]
        have hmem : (v, p) ∈ (alFind st.mappings c).getD [] ++ [(v, p)] :=
          List.mem_append_right _ (List.mem_singleton.mpr rfl)
        have huniq2 : ∀ o a2,
            (o, a2) ∈ (alFind st.mappings c).getD [] ++ [(v, p)] →
            a2 = p → o = v := by
          intro o a2 hm hp2
          rcases List.mem_append.mp hm with hmm | hmm
          · exact huniq o a2 hmm hp2
          · have := List.mem_singleton.mp hmm
            exact congrArg Prod.fst this
        have hfo := findOrig_eq _ p v hmem huniq2
        simp only [reverseLookup_hint st2.mappings p c hcne, hcol, hfo]
  · intro m q c2 hc2 hnone
    simp only [reverseLookup_hint m q c2 hc2, hnone]
  · intro m q c2 cm hc2 hsome hfo
    simp only [reverseLookup_hint m q c2 hc2, hsome, hfo]

/-- Witness for C5 at concrete input: `"b"` freshly anonymized in the
category column `"idcol"` gets pseudonym `"I_001"`, and the hinted
reverse lookup returns `"b"`. -/
theorem claim_C5_witness :
    reverseLookup
      (⟨[("col", [("a", "X")]), ("idcol", [("b", "I_001")])], 0⟩ :
        AnonState).mappings "I_001" (some "idcol") = "b" :=
  claim_C5.1 mdW stW ⟨[("col", [("a", "X")]), ("idcol", [("b", "I_001")])], 0⟩
    "idcol" "b" "I_001" (by decide) (by decide) (by decide)
    (fun o a hm _ => absurd hm (List.not_mem_nil (o, a)))

/-! ### Engine lemmas -/

theorem anonymizeCell_pres (md5hex : String → String) (preserved : List String)
    (c v : String) (st : AnonState) (hp : c ∈ preserved ∨ v = "") :
    anonymizeCell md5hex preserved c v st = some (v, st) := by
  simp only [anonymizeCell, if_pos hp]

theorem anonymizeCell_anon (md5hex : String → String) (preserved : List String)
    (c v : String) (st : AnonState) (hp : ¬(c ∈ preserved ∨ v = "")) :
    anonymizeCell md5hex preserved c v st = createAnonymizedValue md5hex v c st := by
  simp only [anonymizeCell, if_neg hp]

theorem anonymizeRow_cons_some (md5hex : String → String)
    (preserved : List String) (c v v2 : String) (st st2 st3 : AnonState)
    (rest r2 : Row) (hc : anonymizeCell md5hex preserved c v st = some (v2, st2))
    (hr : anonymizeRow md5hex preserved st2 rest = some (r2, st3)) :
    anonymizeRow md5hex preserved st ((c, v) :: rest) =
      some ((c, v2) :: r2, st3) := by
  simp only [anonymizeRow, hc, hr]

theorem anonymizeRow_cons_inv (md5hex : String → String)
    (preserved : List String) (c v : String) (st stf : AnonState)
    (rest out : Row)
    (h : anonymizeRow md5hex preserved st ((c, v) :: rest) = some (out, stf)) :
    ∃ v2 st2 r2, anonymizeCell md5hex preserved c v st = some (v2, st2) ∧
      anonymizeRow md5hex preserved st2 rest = some (r2, stf) ∧
      out = (c, v2) :: r2 := by
  unfold anonymizeRow at h
  split at h
  · exact absurd h (by simp)
  next v2 st2 hc =>
    split at h
    · exact absurd h (by simp)
    next r2 st3 hr =>
      simp only [Option.some.injEq, Prod.mk.injEq] at h
      exact ⟨v2, st2, r2, hc, h.2 ▸ hr, h.1.symm⟩

theorem anonymizeRows_cons_some (md5hex : String → String)
    (preserved : List String) (st st2 st3 : AnonState) (r r2 : Row)
    (rest : List Row) (out2 : List Row)
    (hc : anonymizeRow md5hex preserved st r = some (r2, st2))
    (hr : anonymizeRows md5hex preserved st2 rest = some (out2, st3)) :
    anonymizeRows md5hex preserved st (r :: rest) = some (r2 :: out2, st3) := by
  simp only [anonymizeRows, hc, hr]

theorem anonymizeRows_cons_inv (md5hex : String → String)
    (preserved : List String) (st stf : AnonState) (r : Row)
    (rest : List Row) (out : List Row)
    (h : anonymizeRows md5hex preserved st (r :: rest) = some (out, stf)) :
    ∃ r2 st2 out2, anonymizeRow md5hex preserved st r = some (r2, st2) ∧
      anonymizeRows md5hex preserved st2 rest = some (out2, stf) ∧
      out = r2 :: out2 := by
  unfold anonymizeRows at h
  split at h
  · exact absurd h (by simp)
  next r2 st2 hc =>
    split at h
    · exact absurd h (by simp)
    next out2 st3 hr =>
      simp only [Option.some.injEq, Prod.mk.injEq] at h
      exact ⟨r2, st2, out2, hc, h.2 ▸ hr, h.1.symm⟩

/-- The row transform agrees with the spec's per-cell contract. -/
theorem anonymizeRow_iff (md5hex : String → String) (preserved : List String) :
    ∀ (r : Row) (st : AnonState) (r2 : Row) (stf : AnonState),
    anonymizeRow md5hex preserved st r = some (r2, stf) ↔
      rowSpec md5hex preserved st r r2 stf := by
  intro r
  induction r with
  | nil =>
    intro st r2 stf
    simp only [anonymizeRow, rowSpec, Option.some.injEq, Prod.mk.injEq]
    exact ⟨fun h => ⟨h.1.symm, h.2.symm⟩, fun h => ⟨h.1.symm, h.2.symm⟩⟩
  | cons cell rest ih =>
    intro st r2 stf
    obtain ⟨c, v⟩ := cell
    by_cases hp : c ∈ preserved ∨ v = ""
    · constructor
      · intro h
        obtain ⟨v2, st2, o2, hc, hr, hout⟩ :=
          anonymizeRow_cons_inv md5hex preserved c v st stf rest r2 h
        rw [anonymizeCell_pres md5hex preserved c v st hp] at hc
        simp only [Option.some.injEq, Prod.mk.injEq] at hc
        obtain ⟨hv2, hst2⟩ := hc
        subst hv2
        subst hst2
        simp only [rowSpec, if_pos hp]
        exact ⟨o2, hout, (ih st o2 stf).mp hr⟩
      · intro h
        simp only [rowSpec, if_pos hp] at h
        obtain ⟨o2, hout, hrest⟩ := h
        rw [hout]
        exact anonymizeRow_cons_some md5hex preserved c v v st st stf rest o2
          (anonymizeCell_pres md5hex preserved c v st hp)
          ((ih st o2 stf).mpr hrest)
    · constructor
      · intro h
        obtain ⟨v2, st2, o2, hc, hr, hout⟩ :=
          anonymizeRow_cons_inv md5hex preserved c v st stf rest r2 h
        rw [anonymizeCell_anon md5hex preserved c v st hp] at hc
        simp only [rowSpec, if_neg hp]
        exact ⟨v2, st2, o2, hc, hout, (ih st2 o2 stf).mp hr⟩
      · intro h
        simp only [rowSpec, if_neg hp] at h
        obtain ⟨w, st2, o2, hcreate, hout, hrest⟩ := h
        rw [hout]
        refine anonymizeRow_cons_some md5hex preserved c v w st st2 stf rest o2
          ?_ ((ih st2 o2 stf).mpr hrest)
        rw [anonymizeCell_anon md5hex preserved c v st hp]
        exact hcreate

/-- The row-stream transform agrees with the spec's contract. -/
theorem anonymizeRows_iff (md5hex : String → String) (preserved : List String) :
    ∀ (rows : List Row) (st : AnonState) (out : List Row) (stf : AnonState),
    anonymizeRows md5hex preserved st rows = some (out, stf) ↔
      rowsSpec md5hex preserved st rows out stf := by
  intro rows
  induction rows with
  | nil =>
    intro st out stf
    simp only [anonymizeRows, rowsSpec, Option.some.injEq, Prod.mk.injEq]
    exact ⟨fun h => ⟨h.1.symm, h.2.symm⟩, fun h => ⟨h.1.symm, h.2.symm⟩⟩
  | cons r rest ih =>
    intro st out stf
    constructor
    · intro h
      obtain ⟨r2, st2, out2, hc, hr, hout⟩ :=
        anonymizeRows_cons_inv md5hex preserved st stf r rest out h
      exact ⟨r2, st2, out2, (anonymizeRow_iff md5hex preserved r st r2 st2).mp hc,
        hout, (ih st2 out2 stf).mp hr⟩
    · intro h
      obtain ⟨r2, st2, out2, hspec, hout, hrest⟩ := h
      rw [hout]
      exact anonymizeRows_cons_some md5hex preserved st st2 stf r r2 rest out2
        ((anonymizeRow_iff md5hex preserved r st r2 st2).mpr hspec)
        ((ih st2 out2 stf).mpr hrest)

/-- A row transformed under the spec contract keeps its column names in
order. -/
theorem rowSpec_cols (md5hex : String → String) (preserved : List String) :
    ∀ (r : Row) (st : AnonState) (r2 : Row) (stf : AnonState),
    rowSpec md5hex preserved st r r2 stf → r2.map Prod.fst = r.map Prod.fst := by
  intro r
  induction r with
  | nil =>
    intro st r2 stf h
    rw [h.1]
  | cons cell rest ih =>
    intro st r2 stf h
    obtain ⟨c, v⟩ := cell
    by_cases hp : c ∈ preserved ∨ v = ""
    · simp only [rowSpec, if_pos hp] at h
      obtain ⟨o2, hout, hrest⟩ := h
      rw [hout]
      simp [ih _ _ _ hrest]
    · simp only [rowSpec, if_neg hp] at h
      obtain ⟨w, st2, o2, _, hout, hrest⟩ := h
      rw [hout]
      simp [ih _ _ _ hrest]

/-- The spec contract is one-to-one and order-preserving over rows:
same number of rows, same column lists row by row. -/
theorem rowsSpec_shape (md5hex : String → String) (preserved : List String) :
    ∀ (rows : List Row) (st : AnonState) (out : List Row) (stf : AnonState),
    rowsSpec md5hex preserved st rows out stf →
    out.length = rows.length ∧
      out.map (fun r => r.map Prod.fst) = rows.map (fun r => r.map Prod.fst) := by
  intro rows
  induction rows with
  | nil =>
    intro st out stf h
    rw [h.1]
    exact ⟨rfl, rfl⟩
  | cons r rest ih =>
    intro st out stf h
    obtain ⟨r2, st2, out2, hspec, hout, hrest⟩ := h
    subst hout
    obtain ⟨hl, hm⟩ := ih st2 out2 stf hrest
    exact ⟨by simp [hl], by
      simp only [List.map_cons, hm, List.cons.injEq]
      simp [rowSpec_cols md5hex preserved r st r2 st2 hspec]⟩

/-- C2: processing succeeds exactly when the output stream satisfies the
spec's per-cell contract — each cell of each row is copied unchanged
when its column is preserved or its value is empty, and otherwise is the
pseudonym of the read-through-or-create path at the store state reached
so far — and on success the transform is one-to-one and order-preserving
over rows, with column names kept in order within each row. -/
theorem claim_C2 : ∀ (md5hex : String → String) (preserved : List String)
    (st stf : AnonState) (rows out : List Row),
    (anonymizeRows md5hex preserved st rows = some (out, stf) ↔
      rowsSpec md5hex preserved st rows out stf) ∧
    (anonymizeRows md5hex preserved st rows = some (out, stf) →
      out.length = rows.length ∧
      out.map (fun r => r.map Prod.fst) = rows.map (fun r => r.map Prod.fst)) :=
  fun md5hex preserved st stf rows out =>
    ⟨anonymizeRows_iff md5hex preserved rows st out stf,
     fun h => rowsSpec_shape md5hex preserved rows st out stf
       ((anonymizeRows_iff md5hex preserved rows st out stf).mp h)⟩

/-- Witness for C2 at concrete input: a one-row stream through the store
`stW` hits the existing mapping and satisfies the spec contract. -/
theorem claim_C2_witness :
    rowsSpec mdW [] stW [[("col", "a")]] [[("col", "X")]] stW :=
  (claim_C2 mdW [] stW stW [[("col", "a")]] [[("col", "X")]]).1.mp (by decide)

/-! ### Persistence lemmas -/

/-- `_create_anonymized_value` never removes a key from the store. -/
theorem create_preserves_key (md5hex : String → String) (st st2 : AnonState)
    (c v p k : String) (h : createAnonymizedValue md5hex v c st = some (p, st2))
    (hk : (alFind st.mappings k).isSome) : (alFind st2.mappings k).isSome := by
  have hens : ∀ m : Store, (alFind m k).isSome → (alFind (ensureCol m c) k).isSome := by
    intro m hm
    by_cases hkc : k = c
    · subst hkc
      rw [alFind_ensureCol_self]
      rfl
    · rw [alFind_ensureCol_ne m c k hkc]
      exact hm
  cases h2 : alFind ((alFind st.mappings c).getD []) v with
  | some q =>
    rw [create_found md5hex st c v q h2] at h
    simp only [Option.some.injEq, Prod.mk.injEq] at h
    rw [← h.2]
    exact hens st.mappings hk
  | none =>
    cases h3 : dispatchGenerator md5hex v c ((alFind st.mappings c).getD [])
        st.counter with
    | none =>
      rw [create_miss_none md5hex st c v h2 h3] at h
      exact absurd h (by simp)
    | some acnt =>
      obtain ⟨a, cnt2⟩ := acnt
      rw [create_miss_some md5hex st c v a cnt2 h2 h3] at h
      simp only [Option.some.injEq, Prod.mk.injEq] at h
      rw [← h.2]
      show (alFind (alSet (ensureCol st.mappings c) c _) k).isSome
      rw [alFind_alSet]
      by_cases hkc : k = c
      · rw [if_pos hkc]; rfl
      · rw [if_neg hkc, alFind_ensureCol_ne st.mappings c k hkc]
        exact hk

/-- A cell step never removes a key from the store. -/
theorem cell_preserves_key (md5hex : String → String) (preserved : List String)
    (c v v2 k : String) (st st2 : AnonState)
    (h : anonymizeCell md5hex preserved c v st = some (v2, st2))
    (hk : (alFind st.mappings k).isSome) : (alFind st2.mappings k).isSome := by
  unfold anonymizeCell at h
  split at h
  · simp only [Option.some.injEq, Prod.mk.injEq] at h
    rw [← h.2]
    exact hk
  · exact create_preserves_key md5hex st st2 c v v2 k h hk

/-- A row pass never removes a key from the store. -/
theorem row_preserves_key (md5hex : String → String) (preserved : List String)
    (k : String) : ∀ (r : Row) (st stf : AnonState) (r2 : Row),
    anonymizeRow md5hex preserved st r = some (r2, stf) →
    (alFind st.mappings k).isSome → (alFind stf.mappings k).isSome := by
  intro r
  induction r with
  | nil =>
    intro st stf r2 h hk
    simp only [anonymizeRow, Option.some.injEq, Prod.mk.injEq] at h
    rw [← h.2]
    exact hk
  | cons cell rest ih =>
    intro st stf r2 h hk
    obtain ⟨c, v⟩ := cell
    obtain ⟨v2, st2, o2, hc, hr, -⟩ :=
      anonymizeRow_cons_inv md5hex preserved c v st stf rest r2 h
    exact ih st2 stf o2 hr
      (cell_preserves_key md5hex preserved c v v2 k st st2 hc hk)

/-- A full table pass never removes a key from the store. -/
theorem rows_preserves_key (md5hex : String → String) (preserved : List String)
    (k : String) : ∀ (rows : List Row) (st stf : AnonState) (out : List Row),
    anonymizeRows md5hex preserved st rows = some (out, stf) →
    (alFind st.mappings k).isSome → (alFind stf.mappings k).isSome := by
  intro rows
  induction rows with
  | nil =>
    intro st stf out h hk
    simp only [anonymizeRows, Option.some.injEq, Prod.mk.injEq] at h
    rw [← h.2]
    exact hk
  | cons r rest ih =>
    intro st stf out h hk
    obtain ⟨r2, st2, out2, hc, hr, -⟩ :=
      anonymizeRows_cons_inv md5hex preserved st stf r rest out h
    exact ih st2 stf out2 hr
      (row_preserves_key md5hex preserved k r st st2 r2 hc hk)

/-- C7: the persisted mapping file changes only through the single save
after the whole table pass.  Started from a disk whose loaded store has
the `"_metadata"` key (which `_load_mappings` guarantees for a fresh
store), a run that raises mid-stream leaves the on-disk store exactly as
it was — every mapping created during the failed run is lost — while a
run that completes the full pass writes exactly the saved form of the
final in-memory store. -/
theorem claim_C7 : ∀ (md5hex : String → String) (now now2 : String)
    (preserved : List String) (disk : Option Store) (rows : List Row),
    (alFind (loadMappings now disk) "_metadata").isSome →
    (anonymizeRows md5hex preserved (initState now disk) rows = none →
      mappingFileAfterRun md5hex now now2 preserved disk rows = disk) ∧
    (∀ out stf,
      anonymizeRows md5hex preserved (initState now disk) rows = some (out, stf) →
      ∃ saved, saveMappings now2 stf.mappings = some saved ∧
        mappingFileAfterRun md5hex now now2 preserved disk rows = some saved) := by
  intro md5hex now now2 preserved disk rows hmeta
  constructor
  · intro hnone
    simp only [mappingFileAfterRun, hnone]
  · intro out stf hsome
    have hm2 : (alFind stf.mappings "_metadata").isSome :=
      rows_preserves_key md5hex preserved "_metadata" rows
        (initState now disk) stf out hsome hmeta
    obtain ⟨md, hmd⟩ := Option.isSome_iff_exists.mp hm2
    have hsave : saveMappings now2 stf.mappings =
        some (alSet stf.mappings "_metadata"
          (alSet (alSet md "last_updated" now2) "total_mappings"
            (toString (totalMappings stf.mappings)))) := by
      unfold saveMappings
      rw [hmd]
    exact ⟨_, hsave, by simp only [mappingFileAfterRun, hsome, hsave]⟩

/-- Witness for C7 at concrete input: an empty run from a fresh store
completes and saves once. -/
theorem claim_C7_witness :
    ∃ saved, saveMappings "T2" (initState "T" none).mappings = some saved ∧
      mappingFileAfterRun mdW "T" "T2" [] none [] = some saved :=
  (claim_C7 mdW "T" "T2" [] none [] (by decide)).2 [] (initState "T" none) rfl

/-! ### Determinism (timestamp-independence) lemmas -/

/-- `_create_anonymized_value` reads and writes only the column it is
given: on states agreeing outside `"_metadata"`, a non-metadata column
produces the same pseudonym (or the same failure) and keeps the states
in agreement. -/
theorem create_agree (md5hex : String → String) (c v : String)
    (st1 st2 : AnonState) (hc : c ≠ "_metadata") (hag : agreeOffMeta st1 st2) :
    (createAnonymizedValue md5hex v c st1 = none →
      createAnonymizedValue md5hex v c st2 = none) ∧
    (∀ p st1b, createAnonymizedValue md5hex v c st1 = some (p, st1b) →
      ∃ st2b, createAnonymizedValue md5hex v c st2 = some (p, st2b) ∧
        agreeOffMeta st1b st2b) := by
  obtain ⟨hcnt, hmap⟩ := hag
  have hfind : alFind st1.mappings c = alFind st2.mappings c := hmap c hc
  have hcm : (alFind st1.mappings c).getD [] =
      (alFind st2.mappings c).getD [] := by rw [hfind]
  have hensAg : ∀ k, k ≠ "_metadata" →
      alFind (ensureCol st1.mappings c) k =
        alFind (ensureCol st2.mappings c) k := by
    intro k hk
    by_cases hkc : k = c
    · subst hkc
      rw [alFind_ensureCol_self, alFind_ensureCol_self, hcm]
    · rw [alFind_ensureCol_ne _ _ _ hkc, alFind_ensureCol_ne _ _ _ hkc]
      exact hmap k hk
  constructor
  · intro h1
    cases h2 : alFind ((alFind st1.mappings c).getD []) v with
    | some q =>
      rw [create_found md5hex st1 c v q h2] at h1
      exact absurd h1 (by simp)
    | none =>
      have h2b : alFind ((alFind st2.mappings c).getD []) v = none := by
        rw [← hcm]; exact h2
      cases h3 : dispatchGenerator md5hex v c ((alFind st1.mappings c).getD [])
          st1.counter with
      | some acnt =>
        obtain ⟨a, cnt2⟩ := acnt
        rw [create_miss_some md5hex st1 c v a cnt2 h2 h3] at h1
        exact absurd h1 (by simp)
      | none =>
        have h3b : dispatchGenerator md5hex v c
            ((alFind st2.mappings c).getD []) st2.counter = none := by
          rw [← hcm, ← hcnt]; exact h3
        exact create_miss_none md5hex st2 c v h2b h3b
  · intro p st1b h1
    cases h2 : alFind ((alFind st1.mappings c).getD []) v with
    | some q =>
      rw [create_found md5hex st1 c v q h2] at h1
      simp only [Option.some.injEq, Prod.mk.injEq] at h1
      obtain ⟨hqp, hstb⟩ := h1
      subst hqp
      have h2b : alFind ((alFind st2.mappings c).getD []) v = some q := by
        rw [← hcm]; exact h2
      refine ⟨_, create_found md5hex st2 c v q h2b, ?_⟩
      rw [← hstb]
      exact ⟨hcnt, hensAg⟩
    | none =>
      have h2b : alFind ((alFind st2.mappings c).getD []) v = none := by
        rw [← hcm]; exact h2
      cases h3 : dispatchGenerator md5hex v c ((alFind st1.mappings c).getD [])
          st1.counter with
      | none =>
        rw [create_miss_none md5hex st1 c v h2 h3] at h1
        exact absurd h1 (by simp)
      | some acnt =>
        obtain ⟨a, cnt2⟩ := acnt
        have h3b : dispatchGenerator md5hex v c
            ((alFind st2.mappings c).getD []) st2.counter = some (a, cnt2) := by
          rw [← hcm, ← hcnt]; exact h3
        rw [create_miss_some md5hex st1 c v a cnt2 h2 h3] at h1
        simp only [Option.some.injEq, Prod.mk.injEq] at h1
        obtain ⟨hap, hstb⟩ := h1
        subst hap
        refine ⟨_, create_miss_some md5hex st2 c v a cnt2 h2b h3b, ?_⟩
        rw [← hstb]
        refine ⟨rfl, ?_⟩
        intro k hk
        show alFind (alSet (ensureCol st1.mappings c) c
            ((alFind st1.mappings c).getD [] ++ [(v, a)])) k =
          alFind (alSet (ensureCol st2.mappings c) c
            ((alFind st2.mappings c).getD [] ++ [(v, a)])) k
        rw [alFind_alSet, alFind_alSet]
        by_cases hkc : k = c
        · rw [if_pos hkc, if_pos hkc, hcm]
        · rw [if_neg hkc, if_neg hkc]
          exact hensAg k hk

/-- Cell-level version of `create_agree`. -/
theorem cell_agree (md5hex : String → String) (preserved : List String)
    (c v : String) (st1 st2 : AnonState) (hc : c ≠ "_metadata")
    (hag : agreeOffMeta st1 st2) :
    (anonymizeCell md5hex preserved c v st1 = none →
      anonymizeCell md5hex preserved c v st2 = none) ∧
    (∀ v2 st1b, anonymizeCell md5hex preserved c v st1 = some (v2, st1b) →
      ∃ st2b, anonymizeCell md5hex preserved c v st2 = some (v2, st2b) ∧
        agreeOffMeta st1b st2b) := by
  by_cases hp : c ∈ preserved ∨ v = ""
  · rw [anonymizeCell_pres md5hex preserved c v st1 hp,
      anonymizeCell_pres md5hex preserved c v st2 hp]
    refine ⟨fun h => absurd h (by simp), ?_⟩
    intro v2 st1b h
    simp only [Option.some.injEq, Prod.mk.injEq] at h
    exact ⟨st2, by rw [h.1], h.2 ▸ hag⟩
  · rw [anonymizeCell_anon md5hex preserved c v st1 hp,
      anonymizeCell_anon md5hex preserved c v st2 hp]
    exact create_agree md5hex c v st1 st2 hc hag

/-- Row-level version of `create_agree`. -/
theorem row_agree (md5hex : String → String) (preserved : List String) :
    ∀ (r : Row) (st1 st2 : AnonState),
    (∀ cell ∈ r, cell.1 ≠ "_metadata") → agreeOffMeta st1 st2 →
    (anonymizeRow md5hex preserved st1 r = none →
      anonymizeRow md5hex preserved st2 r = none) ∧
    (∀ r2 st1b, anonymizeRow md5hex preserved st1 r = some (r2, st1b) →
      ∃ st2b, anonymizeRow md5hex preserved st2 r = some (r2, st2b) ∧
        agreeOffMeta st1b st2b) := by
  intro r
  induction r with
  | nil =>
    intro st1 st2 _ hag
    refine ⟨fun h => absurd h (by simp [anonymizeRow]), ?_⟩
    intro r2 st1b h
    simp only [anonymizeRow, Option.some.injEq, Prod.mk.injEq] at h
    exact ⟨st2, by simp [anonymizeRow, h.1], h.2 ▸ hag⟩
  | cons cell rest ih =>
    intro st1 st2 hcells hag
    obtain ⟨c, v⟩ := cell
    have hc : c ≠ "_metadata" := hcells (c, v) (List.mem_cons_self _ _)
    have hrest : ∀ cell2 ∈ rest, cell2.1 ≠ "_metadata" :=
      fun cell2 hm => hcells cell2 (List.mem_cons_of_mem _ hm)
    obtain ⟨hcn, hcs⟩ := cell_agree md5hex preserved c v st1 st2 hc hag
    constructor
    · intro h
      cases hcell : anonymizeCell md5hex preserved c v st1 with
      | none =>
        simp only [anonymizeRow, hcn hcell]
      | some pr =>
        obtain ⟨v2, st1m⟩ := pr
        obtain ⟨st2m, hcell2, hag2⟩ := hcs v2 st1m hcell
        simp only [anonymizeRow, hcell] at h
        simp only [anonymizeRow, hcell2]
        cases hrow : anonymizeRow md5hex preserved st1m rest with
        | none =>
          rw [(ih st1m st2m hrest hag2).1 hrow]
        | some pr2 =>
          rw [hrow] at h
          exact absurd h (by simp)
    · intro r2 st1b h
      cases hcell : anonymizeCell md5hex preserved c v st1 with
      | none =>
        simp only [anonymizeRow, hcell] at h
        exact absurd h (by simp)
      | some pr =>
        obtain ⟨v2, st1m⟩ := pr
        obtain ⟨st2m, hcell2, hag2⟩ := hcs v2 st1m hcell
        simp only [anonymizeRow, hcell] at h
        cases hrow : anonymizeRow md5hex preserved st1m rest with
        | none =>
          rw [hrow] at h
          exact absurd h (by simp)
        | some pr2 =>
          obtain ⟨o2, st1f⟩ := pr2
          rw [hrow] at h
          simp only [Option.some.injEq, Prod.mk.injEq] at h
          obtain ⟨st2f, hrow2, hag3⟩ := (ih st1m st2m hrest hag2).2 o2 st1f hrow
          refine ⟨st2f, ?_, h.2 ▸ hag3⟩
          simp only [anonymizeRow, hcell2, hrow2, ← h.1]

/-- Stream-level version of `create_agree`. -/
theorem rows_agree (md5hex : String → String) (preserved : List String) :
    ∀ (rows : List Row) (st1 st2 : AnonState),
    (∀ r ∈ rows, ∀ cell ∈ r, cell.1 ≠ "_metadata") → agreeOffMeta st1 st2 →
    (anonymizeRows md5hex preserved st1 rows = none →
      anonymizeRows md5hex preserved st2 rows = none) ∧
    (∀ out st1b, anonymizeRows md5hex preserved st1 rows = some (out, st1b) →
      ∃ st2b, anonymizeRows md5hex preserved st2 rows = some (out, st2b) ∧
        agreeOffMeta st1b st2b) := by
  intro rows
  induction rows with
  | nil =>
    intro st1 st2 _ hag
    refine ⟨fun h => absurd h (by simp [anonymizeRows]), ?_⟩
    intro out st1b h
    simp only [anonymizeRows, Option.some.injEq, Prod.mk.injEq] at h
    exact ⟨st2, by simp [anonymizeRows, h.1], h.2 ▸ hag⟩
  | cons r rest ih =>
    intro st1 st2 hcells hag
    have hr : ∀ cell ∈ r, cell.1 ≠ "_metadata" :=
      hcells r (List.mem_cons_self _ _)
    have hrest : ∀ r2 ∈ rest, ∀ cell ∈ r2, cell.1 ≠ "_metadata" :=
      fun r2 hm => hcells r2 (List.mem_cons_of_mem _ hm)
    obtain ⟨hrn, hrs⟩ := row_agree md5hex preserved r st1 st2 hr hag
    constructor
    · intro h
      cases hrow : anonymizeRow md5hex preserved st1 r with
      | none =>
        simp only [anonymizeRows, hrn hrow]
      | some pr =>
        obtain ⟨r2, st1m⟩ := pr
        obtain ⟨st2m, hrow2, hag2⟩ := hrs r2 st1m hrow
        simp only [anonymizeRows, hrow] at h
        simp only [anonymizeRows, hrow2]
        cases hrows : anonymizeRows md5hex preserved st1m rest with
        | none =>
          rw [(ih st1m st2m hrest hag2).1 hrows]
        | some pr2 =>
          rw [hrows] at h
          exact absurd h (by simp)
    · intro out st1b h
      cases hrow : anonymizeRow md5hex preserved st1 r with
      | none =>
        simp only [anonymizeRows, hrow] at h
        exact absurd h (by simp)
      | some pr =>
        obtain ⟨r2, st1m⟩ := pr
        obtain ⟨st2m, hrow2, hag2⟩ := hrs r2 st1m hrow
        simp only [anonymizeRows, hrow] at h
        cases hrows : anonymizeRows md5hex preserved st1m rest with
        | none =>
          rw [hrows] at h
          exact absurd h (by simp)
        | some pr2 =>
          obtain ⟨o2, st1f⟩ := pr2
          rw [hrows] at h
          simp only [Option.some.injEq, Prod.mk.injEq] at h
          obtain ⟨st2f, hrows2, hag3⟩ := (ih st1m st2m hrest hag2).2 o2 st1f hrows
          refine ⟨st2f, ?_, h.2 ▸ hag3⟩
          simp only [anonymizeRows, hrow2, hrows2, ← h.1]

/-- C8 counterexample: two independent fresh starts are not identical on
every input, because `_load_mappings` seeds the fresh store with a
run-local creation timestamp under `"_metadata"` and the engine treats a
CSV column literally named `"_metadata"` as an ordinary column.  A row
with cell `("_metadata", "created")` hits the metadata entry and emits
the run's timestamp, so two runs differing only in start time produce
different pseudonyms for the same `(C, V)`. -/
theorem claim_C8_counterexample :
    anonymizeRows mdW [] (initState "T1" none) [[("_metadata", "created")]] =
      some ([[("_metadata", "T1")]], initState "T1" none) ∧
    anonymizeRows mdW [] (initState "T2" none) [[("_metadata", "created")]] =
      some ([[("_metadata", "T2")]], initState "T2" none) ∧
    ([[("_metadata", "T1")]] : List Row) ≠ [[("_metadata", "T2")]] := by
  refine ⟨by decide, by decide, by decide⟩

/-- C8 (amended): provided no input column is named `"_metadata"` (the
reserved metadata key), two independent runs from fresh stores — which
differ only in the metadata creation timestamp — produce identical
output streams, and their final states agree on the counter and on every
non-metadata column: the anonymized output is a deterministic function
of the input stream, the preserved columns, the digest, and the initial
store contents outside the metadata key (the per-run generic counter
starts at zero in both runs). -/
theorem claim_C8 : ∀ (md5hex : String → String) (preserved : List String)
    (rows : List Row) (now1 now2 : String),
    (∀ r ∈ rows, ∀ cell ∈ r, cell.1 ≠ "_metadata") →
    ((anonymizeRows md5hex preserved (initState now1 none) rows = none ∧
      anonymizeRows md5hex preserved (initState now2 none) rows = none) ∨
     (∃ out st1f st2f,
       anonymizeRows md5hex preserved (initState now1 none) rows =
         some (out, st1f) ∧
       anonymizeRows md5hex preserved (initState now2 none) rows =
         some (out, st2f) ∧
       agreeOffMeta st1f st2f)) := by
  intro md5hex preserved rows now1 now2 hcols
  have hag : agreeOffMeta (initState now1 none) (initState now2 none) := by
    refine ⟨rfl, ?_⟩
    intro k hk
    show alFind [("_metadata", [("created", now1)])] k =
      alFind [("_metadata", [("created", now2)])] k
    simp only [alFind]
    rw [if_neg (fun h => hk h.symm), if_neg (fun h => hk h.symm)]
  obtain ⟨hn, hs⟩ :=
    rows_agree md5hex preserved rows (initState now1 none)
      (initState now2 none) hcols hag
  cases hrun : anonymizeRows md5hex preserved (initState now1 none) rows with
  | none => exact Or.inl ⟨rfl, hn hrun⟩
  | some pr =>
    obtain ⟨out, st1f⟩ := pr
    obtain ⟨st2f, hrun2, hagf⟩ := hs out st1f hrun
    exact Or.inr ⟨out, st1f, st2f, rfl, hrun2, hagf⟩

/-- Witness for C8 at concrete input: one category cell, two different
start timestamps. -/
theorem claim_C8_witness :
    (anonymizeRows mdW [] (initState "T1" none) [[("region", "North")]] = none ∧
     anonymizeRows mdW [] (initState "T2" none) [[("region", "North")]] = none) ∨
    (∃ out st1f st2f,
      anonymizeRows mdW [] (initState "T1" none) [[("region", "North")]] =
        some (out, st1f) ∧
      anonymizeRows mdW [] (initState "T2" none) [[("region", "North")]] =
        some (out, st2f) ∧
      agreeOffMeta st1f st2f) :=
  claim_C8 mdW [] [[("region", "North")]] "T1" "T2" (by decide)

/-- Witness for C1 at concrete input: the stored pair `("col", "a")` is
returned as-is and the state is untouched. -/
theorem claim_C1_witness :
    createAnonymizedValue mdW "a" "col" stW = some ("X", stW) :=
  claim_C1.1 mdW stW "col" "a" [("a", "X")] "X" rfl rfl

end Anon
